import Mathlib

/-!
A verification development for the LAIR note-management TUI
(`src/browse.rs`, `src/app.rs`, `src/ui.rs`, `src/settings.rs`).

Modelling conventions (shallow embedding):

* A filesystem path is modelled root-relatively as a list of name
  components (`RPath`); `[]` is the notes root (`base_dir`).  `Path::parent`
  becomes `List.dropLast`, `Path::file_name` becomes `List.getLast?`.
* Rust `String`s that are manipulated character by character (input
  buffers, display text, file names) are modelled as `List Char` (`RStr`).
* Filesystem type queries (`is_dir` / `is_file`) are inputs, packaged in
  `FsView`; the glob scan outcome is an input `Option (List RPath)`
  (`none` models a failing scan, `some S` the collected entries).
* The recursion of `add_directory_items` descends from a directory to its
  (strictly longer) children, so it is embedded with an explicit fuel that
  the top-level entry point instantiates with a bound that is never hit
  (one more than the longest scanned path).
-/

/-- A root-relative filesystem path: list of components, `[]` is the root. -/
abbrev RPath := List String

/-- A Rust string viewed as its character sequence. -/
abbrev RStr := List Char

/-- Character order by unicode scalar value (byte order of `PathBuf` sorting). -/
def charLtB (a b : Char) : Bool := a.toNat < b.toNat

/-- Lexicographic order on a component's characters, `String < String`. -/
def strLtB : RStr → RStr → Bool
  | [], [] => false
  | [], _ :: _ => true
  | _ :: _, [] => false
  | a :: as, b :: bs => if a = b then strLtB as bs else charLtB a b

/-- `PathBuf ≤ PathBuf`: lexicographic over components (used by `.sort()`). -/
def pathLeB : RPath → RPath → Bool
  | [], _ => true
  | _ :: _, [] => false
  | a :: as, b :: bs => if a = b then pathLeB as bs else strLtB a.data b.data

/-- Insert a path into a sorted list (helper of the stable sort). -/
def insertPath (x : RPath) : List RPath → List RPath
  | [] => [x]
  | y :: ys => if pathLeB x y then x :: y :: ys else y :: insertPath x ys

/-- `Vec::sort` on paths: a stable sort by `pathLeB`. -/
def sortPaths : List RPath → List RPath
  | [] => []
  | x :: xs => insertPath x (sortPaths xs)

/-- Strip leading whitespace characters (`str::trim`, left side). -/
def trimLeft : RStr → RStr
  | [] => []
  | c :: cs => if c.isWhitespace then trimLeft cs else c :: cs

/-- Rust `str::trim`: strip whitespace from both ends. -/
def trimChars (s : RStr) : RStr := (trimLeft (trimLeft s).reverse).reverse

/-- The filesystem type queries `Path::is_dir` / `Path::is_file`, as inputs. -/
structure FsView where
  isDir : RPath → Bool
  isFile : RPath → Bool

/-- The parent-walking loop of `should_show_path` (`browse.rs:14-27`):
starting from the immediate parent, succeed on reaching the root, fail on the
first ancestor missing from `expanded_folders`.  `fuel` bounds the walk; the
caller passes the path length, which the walk never exhausts. -/
def checkParents (E : List RPath) : Nat → RPath → Bool
  | 0, _ => true
  | fuel + 1, cur =>
    let parent := cur.dropLast
    if parent = [] then true
    else if parent ∈ E then checkParents E fuel parent
    else false

/-- `should_show_path` (`browse.rs:8-30`): the root itself is never shown; any
other path is shown iff every ancestor strictly below the root is expanded. -/
def should_show_path (p : RPath) (E : List RPath) : Bool :=
  if p = [] then false else checkParents E p.length p

/-- The `paths_by_parent` lookup (`browse.rs:44`): children of `d` among the
visible scanned paths, i.e. those whose `parent()` is `d`. -/
def childrenOf (visible : List RPath) (d : RPath) : List RPath :=
  visible.filter (fun p => decide (p.dropLast = d))

/-- An upper bound on the length of any scanned path (fuel for the descent). -/
def maxPathLen (S : List RPath) : Nat := S.foldr (fun p m => max p.length m) 0

/-- The root header row text `"📂 Root"` (`browse.rs:117`). -/
def rootHeaderText : RStr := "📂 Root".data

/-- The synthetic error row text (`app.rs:90`). -/
def errorText : RStr := "Error loading notes".data

/-- `str::repeat`: `n` concatenated copies of `s`. -/
def strRepeat (s : RStr) : Nat → RStr
  | 0 => []
  | n + 1 => s ++ strRepeat s n

/-- The display text of one emitted row (`browse.rs:49-66`): indentation
proportional to depth, then a folder glyph with expand indicator or a file
glyph, then the path's file name. -/
def display_text (isDir expanded : Bool) (name : String) (depth : Nat) : RStr :=
  let ind := strRepeat "  ".data depth
  if isDir then
    ind ++ " ".data ++ (if expanded then "▼ ".data else "▶ ".data)
        ++ "📁 ".data ++ name.data
  else
    ind ++ " 📄 ".data ++ name.data

/-- The loop body of `add_directory_items` over the sorted children list
(`browse.rs:48-75`); `recur` is the recursive descent into an expanded child
directory. -/
def addChildren (fsv : FsView) (E : List RPath)
    (recur : RPath → Nat → List (RStr × Bool) × List (Option RPath)) :
    List RPath → Nat → List (RStr × Bool) × List (Option RPath)
  | [], _ => ([], [])
  | c :: cs, depth =>
    let name := c.getLast?.getD ""
    let is_file := fsv.isFile c
    let is_expanded := fsv.isDir c && decide (c ∈ E)
    let row := display_text (fsv.isDir c) is_expanded name depth
    let sub := if is_expanded then recur c (depth + 1) else ([], [])
    let rest := addChildren fsv E recur cs depth
    ((row, is_file) :: sub.1 ++ rest.1, some c :: sub.2 ++ rest.2)

/-- `add_directory_items` (`browse.rs:34-77`): emit the sorted children of
`dir`, recursing into each expanded child directory right after its row. -/
def add_directory_items (fsv : FsView) (E visible : List RPath) :
    Nat → RPath → Nat → List (RStr × Bool) × List (Option RPath)
  | 0, _, _ => ([], [])
  | fuel + 1, dir, depth =>
    addChildren fsv E (add_directory_items fsv E visible fuel)
      (sortPaths (childrenOf visible dir)) depth

/-- The scanned paths that survive the visibility filter (`browse.rs:91-114`):
the root is dropped at collection time, the rest is sorted, and only paths
whose ancestors are all expanded enter `paths_by_parent`. -/
def visiblePaths (S E : List RPath) : List RPath :=
  (sortPaths (S.filter (fun p => decide (p ≠ [])))).filter
    (fun p => should_show_path p E)

/-- `get_files_as_list_items_with_paths`, success path (`browse.rs:80-124`)
applied to a scan result `S`: drop the root, sort, keep the paths whose
ancestors are all expanded, prepend the root header, then walk the tree. -/
def get_files_as_list_items_with_paths (fsv : FsView) (S : List RPath)
    (E : List RPath) : List (RStr × Bool) × List (Option RPath) :=
  let tail := add_directory_items fsv E (visiblePaths S E) (maxPathLen S + 1) [] 1
  ((rootHeaderText, false) :: tail.1, none :: tail.2)

/-- The screens of `CurrentScreen` (`app.rs:7-14`). -/
inductive CurrentScreen where
  | Main | Browsing | Editing | CreatingFolder | Exiting | Settings
deriving DecidableEq

/-- The app state relevant to browsing and creation (`app.rs:23-36`):
`selected` is `browse_list_state.selected()`. -/
structure AppState where
  browse_items : List (RStr × Bool)
  browse_paths : List (Option RPath)
  selected : Option Nat
  expanded_folders : List RPath
  note_name_input : RStr
  folder_name_input : RStr
  target_directory : Option RPath
  current_screen : CurrentScreen

/-- `App::new` (`app.rs:38-58`): empty lists, no selection, Main screen. -/
def initialApp : AppState :=
  { browse_items := [], browse_paths := [], selected := none,
    expanded_folders := [], note_name_input := [], folder_name_input := [],
    target_directory := none, current_screen := CurrentScreen.Main }

/-- `App::load_browse_items` (`app.rs:76-95`): on a successful scan store the
projection and select the first item when the list is non-empty; on a failed
scan store one synthetic error row and clear the selection. -/
def load_browse_items (fsv : FsView) (scan : Option (List RPath))
    (a : AppState) : AppState :=
  match scan with
  | some S =>
    let r := get_files_as_list_items_with_paths fsv S a.expanded_folders
    { a with browse_items := r.1, browse_paths := r.2,
             selected := if r.1.isEmpty then none else some 0 }
  | none =>
    { a with browse_items := [(errorText, false)], browse_paths := [none],
             selected := none }

/-- `App::browse_up` (`app.rs:97-105`). -/
def browse_up (a : AppState) : AppState :=
  match a.selected with
  | some i => if 0 < i then { a with selected := some (i - 1) } else a
  | none =>
    if a.browse_items.isEmpty then a else { a with selected := some 0 }

/-- `App::browse_down` (`app.rs:107-116`); `Nat` subtraction is the
`saturating_sub` of the source. -/
def browse_down (a : AppState) : AppState :=
  match a.selected with
  | some i =>
    if i < a.browse_items.length - 1 then { a with selected := some (i + 1) }
    else a
  | none =>
    if a.browse_items.isEmpty then a else { a with selected := some 0 }

/-- `App::get_selected_directory` (`app.rs:131-144`): the selected directory,
else the parent of the selected file, else the notes root `[]`. -/
def get_selected_directory (fsv : FsView) (a : AppState) : RPath :=
  match a.selected with
  | some i =>
    match a.browse_paths.get? i with
    | some (some p) =>
      if fsv.isDir p then p else if fsv.isFile p then p.dropLast else []
    | _ => []
  | none => []

/-- `App::toggle_folder_expansion` (`app.rs:171-185`): flip the selected
directory's membership in `expanded_folders`, then reload the projection. -/
def toggle_folder_expansion (fsv : FsView) (scan : Option (List RPath))
    (a : AppState) : AppState :=
  match a.selected with
  | some i =>
    match a.browse_paths.get? i with
    | some (some p) =>
      if fsv.isDir p then
        let E' := if p ∈ a.expanded_folders then a.expanded_folders.erase p
                  else p :: a.expanded_folders
        load_browse_items fsv scan { a with expanded_folders := E' }
      else a
    | _ => a
  | none => a

/-- The folder name computation of `App::create_new_folder` (`app.rs:151-156`):
the trimmed buffer, or the formatted timestamp `now` when the trim is empty. -/
def new_folder_name (now : RStr) (buf : RStr) : RStr :=
  if trimChars buf = [] then now else trimChars buf

/-- `App::create_new_folder` (`app.rs:147-168`).  The `create_dir_all` outcome
is the input `mkdirOk`; the returned flag is the `Result`.  On failure the
`?` operator returns before any state is touched; on success the buffer and
target directory are cleared and the projection reloaded. -/
def create_new_folder (fsv : FsView) (scan : Option (List RPath)) (now : RStr)
    (mkdirOk : Bool) (a : AppState) : AppState × Bool :=
  let _parent := a.target_directory.getD (get_selected_directory fsv a)
  let _name := new_folder_name now a.folder_name_input
  if mkdirOk then
    (load_browse_items fsv scan
      { a with folder_name_input := [], target_directory := none }, true)
  else (a, false)

/-- The `Enter` arm of the `CreatingFolder` screen (`ui.rs:612-620`): on error
print a notice (second component `true`) and stay; on success switch to the
Browsing screen. -/
def handleCreatingFolderEnter (fsv : FsView) (scan : Option (List RPath))
    (now : RStr) (mkdirOk : Bool) (a : AppState) : AppState × Bool :=
  let r := create_new_folder fsv scan now mkdirOk a
  if r.2 then ({ r.1 with current_screen := CurrentScreen.Browsing }, false)
  else (r.1, true)

/-- The file name computation of `create_note_file` (`ui.rs:67-84`): a named
note uses the trimmed name, appending `.<format>` unless already a suffix; an
absent or blank name falls back to `notes-<timestamp>.<format>`.  `now` is the
formatted timestamp. -/
def note_file_name (now : RStr) (note_name : Option RStr)
    (file_format : RStr) : RStr :=
  match note_name with
  | some name =>
    let trimmed := trimChars name
    if trimmed = [] then "notes-".data ++ now ++ '.' :: file_format
    else if ('.' :: file_format).isSuffixOf trimmed then trimmed
    else trimmed ++ '.' :: file_format
  | none => "notes-".data ++ now ++ '.' :: file_format

/-- The `note_name` argument computed on Enter in the Editing screen
(`ui.rs:549-553`): `None` when the buffer trims to empty, otherwise the
(untrimmed) buffer. -/
def note_name_arg (buf : RStr) : Option RStr :=
  if trimChars buf = [] then none else some buf

/-- The file name produced by confirming the Editing screen with buffer
`buf` (`ui.rs:549-560` composed with `create_note_file`). -/
def confirmed_note_file_name (now buf fmt : RStr) : RStr :=
  note_file_name now (note_name_arg buf) fmt

/-- A file store: contents (if any) at each path. -/
def Fstore := RPath → Option RStr

/-- The creation step of `create_note_file` (`ui.rs:86-93`): create an empty
file only when nothing exists at the target path, and return the path. -/
def create_empty_if_absent (fs : Fstore) (p : RPath) : Fstore × RPath :=
  if (fs p).isSome then (fs, p)
  else (fun q => if q = p then some [] else fs q, p)

/-- `create_note_file` (`ui.rs:45-94`): resolve the target directory (the
given one, else a date-stamped child `date_folder` of the root), build the
file name, and create the file non-destructively.  The `create_dir_all` call
only touches directories, which the file store does not record. -/
def create_note_file (fs : Fstore) (now date_folder : RStr)
    (note_name : Option RStr) (file_format : RStr)
    (target_dir : Option RPath) : Fstore × RPath :=
  let dir := match target_dir with
             | some t => t
             | none => [String.mk date_folder]
  let file_name := note_file_name now note_name file_format
  create_empty_if_absent fs (dir ++ [String.mk file_name])

/-- `SettingsField` (`app.rs:17-21`). -/
inductive SettingsField where
  | NotesDirectory | Editor | FileFormat
deriving DecidableEq

/-- The Up arm of the Settings screen (`ui.rs:642-656`). -/
def settings_field_up : Option SettingsField → Option SettingsField
  | none => some SettingsField.NotesDirectory
  | some SettingsField.NotesDirectory => some SettingsField.NotesDirectory
  | some SettingsField.Editor => some SettingsField.NotesDirectory
  | some SettingsField.FileFormat => some SettingsField.Editor

/-- The Down arm of the Settings screen (`ui.rs:657-671`). -/
def settings_field_down : Option SettingsField → Option SettingsField
  | none => some SettingsField.NotesDirectory
  | some SettingsField.NotesDirectory => some SettingsField.Editor
  | some SettingsField.Editor => some SettingsField.FileFormat
  | some SettingsField.FileFormat => some SettingsField.FileFormat

/-- A header row: the root header or the synthetic error row, the two rows
stored with `path = None`. -/
def isHeaderRow (r : RStr × Bool) : Prop :=
  r.1 = rootHeaderText ∨ r.1 = errorText

/-- A filesystem view with no entries (used for concrete states whose scans
fail before consulting it). -/
def fsEmpty : FsView := { isDir := fun _ => false, isFile := fun _ => false }

/-- App states reachable from `App::new` through the embedded operations
(arbitrary filesystem views and scan outcomes at each step). -/
inductive Reachable : AppState → Prop
  | init : Reachable initialApp
  | load (fsv : FsView) (scan : Option (List RPath)) (a : AppState) :
      Reachable a → Reachable (load_browse_items fsv scan a)
  | up (a : AppState) : Reachable a → Reachable (browse_up a)
  | down (a : AppState) : Reachable a → Reachable (browse_down a)
  | toggle (fsv : FsView) (scan : Option (List RPath)) (a : AppState) :
      Reachable a → Reachable (toggle_folder_expansion fsv scan a)
  | folderEnter (fsv : FsView) (scan : Option (List RPath)) (now : RStr)
      (mkdirOk : Bool) (a : AppState) :
      Reachable a →
      Reachable (handleCreatingFolderEnter fsv scan now mkdirOk a).1

/-- The selection invariant: a selected index is in bounds, and a cleared
selection only coexists with the empty list or the single error row. -/
def SelInv (a : AppState) : Prop :=
  (∀ i, a.selected = some i → i < a.browse_items.length) ∧
  (a.selected = none →
    a.browse_items = [] ∨ a.browse_items = [(errorText, false)])

/-- Characterisation of the paths emitted by the descent from `dir`:
`P` is strictly below `dir`, the descent has enough fuel, `P` itself is a
visible scanned path, and every strictly intermediate ancestor is a visible
expanded directory. -/
def Emits (fsv : FsView) (E visible : List RPath) (fuel : Nat)
    (dir P : RPath) : Prop :=
  dir.length < P.length ∧ P.length - dir.length ≤ fuel ∧
  P.take dir.length = dir ∧ P ∈ visible ∧
  ∀ i, dir.length < i → i < P.length →
    P.take i ∈ visible ∧ fsv.isDir (P.take i) = true ∧ P.take i ∈ E

/-- A file store with a single file (a concrete example store). -/
def fsOne : Fstore :=
  fun q => if q = ["d", "todo.md"] then some "x".data else none

/-- The empty file store. -/
def fsEmptyStore : Fstore := fun _ => none

/-! ## Generic helper lemmas -/

theorem mem_insertPath (x a : RPath) (l : List RPath) :
    a ∈ insertPath x l ↔ a = x ∨ a ∈ l := by
  induction l with
  | nil => simp [insertPath]
  | cons y ys ih =>
    simp only [insertPath]
    split
    · simp
    · simp [ih]; tauto

theorem mem_sortPaths (a : RPath) (l : List RPath) :
    a ∈ sortPaths l ↔ a ∈ l := by
  induction l with
  | nil => simp [sortPaths]
  | cons x xs ih => simp [sortPaths, mem_insertPath, ih]

theorem le_maxPathLen (S : List RPath) (p : RPath) (hp : p ∈ S) :
    p.length ≤ maxPathLen S := by
  induction S with
  | nil => cases hp
  | cons q qs ih =>
    rcases List.mem_cons.mp hp with h | h
    · subst h; simp [maxPathLen]
    · have := ih h
      simp only [maxPathLen, List.foldr] at this ⊢
      omega

/-! ## The easy screen-level claims -/

/-- C4: when the scan of the notes root fails, loading the browse list yields
exactly one row with `path = None` carrying the error label, and the
selection cursor becomes `None`. -/
theorem c4_error_projection (fsv : FsView) (a : AppState) :
    (load_browse_items fsv none a).browse_items = [(errorText, false)] ∧
    (load_browse_items fsv none a).browse_paths = [none] ∧
    (load_browse_items fsv none a).selected = none :=
  ⟨rfl, rfl, rfl⟩

/-- C8: on the Settings screen, Up and Down move the active field with
clamping and no wraparound: Up on the first field stays on the first field,
Down on the last stays on the last, and the interior moves are one step. -/
theorem c8_settings_clamp :
    settings_field_up (some SettingsField.NotesDirectory) =
      some SettingsField.NotesDirectory ∧
    settings_field_down (some SettingsField.FileFormat) =
      some SettingsField.FileFormat ∧
    settings_field_up (some SettingsField.Editor) =
      some SettingsField.NotesDirectory ∧
    settings_field_up (some SettingsField.FileFormat) =
      some SettingsField.Editor ∧
    settings_field_down (some SettingsField.NotesDirectory) =
      some SettingsField.Editor ∧
    settings_field_down (some SettingsField.Editor) =
      some SettingsField.FileFormat ∧
    settings_field_up none = some SettingsField.NotesDirectory ∧
    settings_field_down none = some SettingsField.NotesDirectory := by
  decide

/-- C3 (counterexample): recomputing the browse list does not keep a still
valid selection index.  With scan `[a, b]` the projection has three rows;
after selecting index 1 a reload of the unchanged list moves the cursor back
to index 0 even though index 1 is still valid. -/
theorem c3_counterexample :
    (browse_down (load_browse_items fsEmpty (some [["a"], ["b"]])
        initialApp)).selected = some 1 ∧
    (load_browse_items fsEmpty (some [["a"], ["b"]])
        (browse_down (load_browse_items fsEmpty (some [["a"], ["b"]])
          initialApp))).browse_items.length = 3 ∧
    (load_browse_items fsEmpty (some [["a"], ["b"]])
        (browse_down (load_browse_items fsEmpty (some [["a"], ["b"]])
          initialApp))).selected = some 0 := by
  decide

/-- C3 (amended): whenever the browse list is recomputed, the previous cursor
is discarded: a successful load selects index 0 (the successful list is never
empty, it starts with the root header), and a failed load clears the
selection. -/
theorem c3_amended (fsv : FsView) (S : List RPath) (a : AppState) :
    (load_browse_items fsv (some S) a).selected = some 0 ∧
    (load_browse_items fsv none a).selected = none := by
  constructor
  · simp [load_browse_items, get_files_as_list_items_with_paths]
  · rfl

/-- C10: every successful projection is non-empty and starts with the root
header row (`path = None`), so every successful browse-list load selects
index 0. -/
theorem c10_root_header (fsv : FsView) (S E : List RPath) (a : AppState) :
    (get_files_as_list_items_with_paths fsv S E).1 ≠ [] ∧
    (get_files_as_list_items_with_paths fsv S E).1.head? =
      some (rootHeaderText, false) ∧
    (get_files_as_list_items_with_paths fsv S E).2.head? = some none ∧
    (load_browse_items fsv (some S) a).selected = some 0 := by
  refine ⟨?_, rfl, rfl, ?_⟩
  · simp [get_files_as_list_items_with_paths]
  · simp [load_browse_items, get_files_as_list_items_with_paths]

/-! ## Selection invariant (C5) -/

theorem browse_up_eq_some (a : AppState) (i : Nat) (h : a.selected = some i) :
    browse_up a = if 0 < i then { a with selected := some (i - 1) } else a := by
  unfold browse_up; rw [h]

theorem browse_up_eq_none (a : AppState) (h : a.selected = none) :
    browse_up a =
      if a.browse_items.isEmpty then a else { a with selected := some 0 } := by
  unfold browse_up; rw [h]

theorem browse_down_eq_some (a : AppState) (i : Nat) (h : a.selected = some i) :
    browse_down a =
      if i < a.browse_items.length - 1 then { a with selected := some (i + 1) }
      else a := by
  unfold browse_down; rw [h]

theorem browse_down_eq_none (a : AppState) (h : a.selected = none) :
    browse_down a =
      if a.browse_items.isEmpty then a else { a with selected := some 0 } := by
  unfold browse_down; rw [h]

theorem toggle_eq_none (fsv : FsView) (scan : Option (List RPath))
    (a : AppState) (h : a.selected = none) :
    toggle_folder_expansion fsv scan a = a := by
  unfold toggle_folder_expansion; rw [h]

theorem toggle_eq_miss (fsv : FsView) (scan : Option (List RPath))
    (a : AppState) (i : Nat) (h : a.selected = some i)
    (hp : a.browse_paths.get? i = none) :
    toggle_folder_expansion fsv scan a = a := by
  unfold toggle_folder_expansion
  simp only [h, hp]

theorem toggle_eq_header (fsv : FsView) (scan : Option (List RPath))
    (a : AppState) (i : Nat) (h : a.selected = some i)
    (hp : a.browse_paths.get? i = some none) :
    toggle_folder_expansion fsv scan a = a := by
  unfold toggle_folder_expansion
  simp only [h, hp]

theorem toggle_eq_path (fsv : FsView) (scan : Option (List RPath))
    (a : AppState) (i : Nat) (p : RPath) (h : a.selected = some i)
    (hp : a.browse_paths.get? i = some (some p)) :
    toggle_folder_expansion fsv scan a =
      if fsv.isDir p then
        load_browse_items fsv scan
          { a with expanded_folders :=
              if p ∈ a.expanded_folders then a.expanded_folders.erase p
              else p :: a.expanded_folders }
      else a := by
  unfold toggle_folder_expansion
  simp only [h, hp]

theorem selInv_set_selected_some (a : AppState) (k : Nat)
    (hk : k < a.browse_items.length) : SelInv { a with selected := some k } := by
  constructor
  · intro j hj
    have hj' : some k = some j := hj
    cases hj'
    exact hk
  · intro hn
    exact Option.noConfusion (show some k = none from hn)

theorem selInv_load (fsv : FsView) (scan : Option (List RPath))
    (a : AppState) : SelInv (load_browse_items fsv scan a) := by
  cases scan with
  | none =>
    refine ⟨fun i hi => ?_, fun _ => Or.inr rfl⟩
    simp [load_browse_items] at hi
  | some S =>
    constructor
    · intro i hi
      simp only [load_browse_items] at hi ⊢
      split at hi
      · exact absurd hi (by simp)
      · next hne =>
        cases hi
        simp only [List.isEmpty_iff] at hne
        exact List.length_pos.mpr hne
    · intro hn
      simp only [load_browse_items] at hn
      split at hn
      · next he =>
        left
        simp only [load_browse_items]
        exact List.isEmpty_iff.mp he
      · exact absurd hn (by simp)

theorem selInv_up (a : AppState) (h : SelInv a) : SelInv (browse_up a) := by
  obtain ⟨h1, h2⟩ := h
  cases hs : a.selected with
  | some i =>
    have hi := h1 i hs
    rw [browse_up_eq_some a i hs]
    by_cases hpos : 0 < i
    · rw [if_pos hpos]
      exact selInv_set_selected_some a (i - 1)
        (Nat.lt_of_le_of_lt (Nat.sub_le i 1) hi)
    · rw [if_neg hpos]
      exact ⟨h1, h2⟩
  | none =>
    rw [browse_up_eq_none a hs]
    by_cases he : a.browse_items.isEmpty
    · rw [if_pos he]; exact ⟨h1, h2⟩
    · rw [if_neg he]
      simp only [List.isEmpty_iff] at he
      exact selInv_set_selected_some a 0 (List.length_pos.mpr he)

theorem selInv_down (a : AppState) (h : SelInv a) : SelInv (browse_down a) := by
  obtain ⟨h1, h2⟩ := h
  cases hs : a.selected with
  | some i =>
    have hi := h1 i hs
    rw [browse_down_eq_some a i hs]
    by_cases hlt : i < a.browse_items.length - 1
    · rw [if_pos hlt]
      exact selInv_set_selected_some a (i + 1) (by omega)
    · rw [if_neg hlt]
      exact ⟨h1, h2⟩
  | none =>
    rw [browse_down_eq_none a hs]
    by_cases he : a.browse_items.isEmpty
    · rw [if_pos he]; exact ⟨h1, h2⟩
    · rw [if_neg he]
      simp only [List.isEmpty_iff] at he
      exact selInv_set_selected_some a 0 (List.length_pos.mpr he)

theorem selInv_toggle (fsv : FsView) (scan : Option (List RPath))
    (a : AppState) (h : SelInv a) :
    SelInv (toggle_folder_expansion fsv scan a) := by
  cases hs : a.selected with
  | none => rw [toggle_eq_none fsv scan a hs]; exact h
  | some i =>
    cases hp : a.browse_paths.get? i with
    | none => rw [toggle_eq_miss fsv scan a i hs hp]; exact h
    | some op =>
      cases op with
      | none => rw [toggle_eq_header fsv scan a i hs hp]; exact h
      | some p =>
        rw [toggle_eq_path fsv scan a i p hs hp]
        by_cases hd : fsv.isDir p
        · rw [if_pos hd]
          exact selInv_load _ _ _
        · rw [if_neg hd]
          exact h

theorem selInv_screen (a : AppState) (s : CurrentScreen) (h : SelInv a) :
    SelInv { a with current_screen := s } := h

theorem selInv_folderEnter (fsv : FsView) (scan : Option (List RPath))
    (now : RStr) (mkdirOk : Bool) (a : AppState) (h : SelInv a) :
    SelInv (handleCreatingFolderEnter fsv scan now mkdirOk a).1 := by
  unfold handleCreatingFolderEnter create_new_folder
  cases mkdirOk with
  | true => exact selInv_screen _ _ (selInv_load _ _ _)
  | false => exact h

/-- C5 (counterexample): a failed load is reachable from the initial state and
leaves the browse list non-empty (one error row) while the selection cursor
is `None`, contradicting "the cursor is `None` iff the list is empty". -/
theorem c5_counterexample :
    Reachable (load_browse_items fsEmpty none initialApp) ∧
    (load_browse_items fsEmpty none initialApp).selected = none ∧
    (load_browse_items fsEmpty none initialApp).browse_items ≠ [] :=
  ⟨Reachable.load fsEmpty none initialApp Reachable.init, rfl, by decide⟩

/-- C5 (amended): in every reachable state a selected index is in bounds, and
a `None` cursor coexists only with the empty list or with the single error
row produced by a failed load; `browse_up` and `browse_down` set the cursor
to 0 whenever it is `None` and the list is non-empty. -/
theorem c5_amended :
    (∀ a, Reachable a → SelInv a) ∧
    (∀ a, a.selected = none → a.browse_items ≠ [] →
      (browse_up a).selected = some 0 ∧ (browse_down a).selected = some 0) := by
  constructor
  · intro a h
    induction h with
    | init =>
      exact ⟨fun i hi => Option.noConfusion hi, fun _ => Or.inl rfl⟩
    | load fsv scan a _ _ => exact selInv_load fsv scan a
    | up a _ ih => exact selInv_up a ih
    | down a _ ih => exact selInv_down a ih
    | toggle fsv scan a _ ih => exact selInv_toggle fsv scan a ih
    | folderEnter fsv scan now mkdirOk a _ ih =>
      exact selInv_folderEnter fsv scan now mkdirOk a ih
  · intro a hn hne
    have he : a.browse_items.isEmpty = false := by
      simp [List.isEmpty_iff, hne]
    refine ⟨?_, ?_⟩
    · rw [browse_up_eq_none a hn, he]
      simp
    · rw [browse_down_eq_none a hn, he]
      simp

/-- Witness for C5 (amended): the invariant evaluated at the initial state,
and the cursor-resurrection behaviour of `browse_up` evaluated at the
reachable error state. -/
theorem c5_amended_witness :
    SelInv initialApp ∧
    (browse_up (load_browse_items fsEmpty none initialApp)).selected =
      some 0 :=
  ⟨c5_amended.1 initialApp Reachable.init,
   (c5_amended.2 (load_browse_items fsEmpty none initialApp) rfl
      (by decide)).1⟩

/-! ## Note and folder creation (C6, C7, C9) -/

/-- C6 (counterexample): a buffer of one space is non-empty, yet confirming it
does not produce "trimmed buffer plus extension" (which would be `.md`): the
Editing screen passes `None` for a buffer that trims to empty, so a
timestamp-based name is synthesised instead. -/
theorem c6_counterexample :
    (' ' :: ([] : RStr)) ≠ [] ∧
    confirmed_note_file_name [] (' ' :: []) "md".data ≠
      (if ('.' :: "md".data).isSuffixOf (trimChars (' ' :: []))
       then trimChars (' ' :: [])
       else trimChars (' ' :: []) ++ '.' :: "md".data) ∧
    confirmed_note_file_name [] (' ' :: []) "md".data =
      "notes-".data ++ [] ++ '.' :: "md".data := by
  refine ⟨by decide, by decide, rfl⟩

/-- C6 (amended): when the name buffer is non-empty after trimming, the
created file name is the trimmed buffer with the configured default extension
appended unless the trimmed name already ends in `.<extension>`; in
particular `todo` with extension `md` yields exactly `todo.md`, and a name
already ending in `.md` gets no duplicate extension. -/
theorem c6_names (now buf fmt : RStr) (h : trimChars buf ≠ []) :
    confirmed_note_file_name now buf fmt =
      (if ('.' :: fmt).isSuffixOf (trimChars buf) then trimChars buf
       else trimChars buf ++ '.' :: fmt) ∧
    confirmed_note_file_name now "todo".data "md".data = "todo.md".data ∧
    confirmed_note_file_name now "todo.md".data "md".data =
      "todo.md".data := by
  refine ⟨?_, rfl, rfl⟩
  simp only [confirmed_note_file_name, note_name_arg, note_file_name,
    if_neg h]

/-- Witness for C6 (amended), evaluated at the buffer `todo`. -/
theorem c6_names_witness :
    confirmed_note_file_name [] "todo".data "md".data = "todo.md".data :=
  (c6_names [] "todo".data "md".data (by decide)).2.1

theorem create_empty_if_absent_snd (fs : Fstore) (p : RPath) :
    (create_empty_if_absent fs p).2 = p := by
  unfold create_empty_if_absent
  split <;> rfl

theorem create_empty_if_absent_of_present (fs : Fstore) (p : RPath)
    (h : (fs p).isSome) : (create_empty_if_absent fs p).1 = fs := by
  unfold create_empty_if_absent
  rw [if_pos h]

theorem create_empty_if_absent_of_absent (fs : Fstore) (p : RPath)
    (h : fs p = none) :
    (create_empty_if_absent fs p).1 p = some [] ∧
    ∀ q, q ≠ p → (create_empty_if_absent fs p).1 q = fs q := by
  unfold create_empty_if_absent
  rw [if_neg (by simp [h])]
  exact ⟨by simp, fun q hq => by simp [hq]⟩

/-- C7: note-file creation returns the target path unchanged and writes a new
empty file only when nothing exists there; an existing file is left exactly
as it was (the whole store is unchanged, so in particular the contents are
not truncated). -/
theorem create_note_file_eq (fs : Fstore) (now dateF : RStr)
    (nn : Option RStr) (fmt : RStr) (td : Option RPath) :
    create_note_file fs now dateF nn fmt td =
      create_empty_if_absent fs
        ((match td with
          | some t => t
          | none => [String.mk dateF]) ++
            [String.mk (note_file_name now nn fmt)]) := rfl

theorem c7_no_truncate (fs : Fstore) (now dateF : RStr) (nn : Option RStr)
    (fmt : RStr) (td : Option RPath) :
    ((fs (create_note_file fs now dateF nn fmt td).2).isSome →
       (create_note_file fs now dateF nn fmt td).1 = fs) ∧
    (fs (create_note_file fs now dateF nn fmt td).2 = none →
       (create_note_file fs now dateF nn fmt td).1
           (create_note_file fs now dateF nn fmt td).2 = some [] ∧
       ∀ q, q ≠ (create_note_file fs now dateF nn fmt td).2 →
         (create_note_file fs now dateF nn fmt td).1 q = fs q) := by
  rw [create_note_file_eq, create_empty_if_absent_snd]
  exact ⟨create_empty_if_absent_of_present fs _,
         create_empty_if_absent_of_absent fs _⟩

/-- Witness for C7: a store already holding the target file is returned
untouched, and on the empty store the file appears with empty contents. -/
theorem c7_no_truncate_witness :
    (create_note_file fsOne "t".data "d".data (some "todo".data) "md".data
        (some ["d"])).1 = fsOne ∧
    (create_note_file fsEmptyStore "t".data "d".data (some "todo".data)
        "md".data (some ["d"])).1
      (create_note_file fsEmptyStore "t".data "d".data (some "todo".data)
        "md".data (some ["d"])).2 = some [] :=
  ⟨(c7_no_truncate fsOne "t".data "d".data (some "todo".data) "md".data
      (some ["d"])).1 (by decide),
   ((c7_no_truncate fsEmptyStore "t".data "d".data (some "todo".data)
      "md".data (some ["d"])).2 rfl).1⟩

/-- C9: if folder creation fails on confirm, the application keeps the
CreatingFolder screen, surfaces the error, and leaves the folder-name buffer
and the target directory untouched; on success it switches to Browsing with
the state produced by a fresh reload of the projection. -/
theorem c9_folder_creation (fsv : FsView) (scan : Option (List RPath))
    (now : RStr) (a : AppState)
    (h : a.current_screen = CurrentScreen.CreatingFolder) :
    ((handleCreatingFolderEnter fsv scan now false a).1.current_screen =
        CurrentScreen.CreatingFolder ∧
     (handleCreatingFolderEnter fsv scan now false a).2 = true ∧
     (handleCreatingFolderEnter fsv scan now false a).1.folder_name_input =
        a.folder_name_input ∧
     (handleCreatingFolderEnter fsv scan now false a).1.target_directory =
        a.target_directory) ∧
    ((handleCreatingFolderEnter fsv scan now true a).1.current_screen =
        CurrentScreen.Browsing ∧
     (handleCreatingFolderEnter fsv scan now true a).1 =
       { load_browse_items fsv scan
           { a with folder_name_input := [], target_directory := none } with
         current_screen := CurrentScreen.Browsing }) :=
  ⟨⟨h, rfl, rfl, rfl⟩, ⟨rfl, rfl⟩⟩

/-- Witness for C9, evaluated at a concrete state on the CreatingFolder
screen. -/
theorem c9_folder_creation_witness :
    (handleCreatingFolderEnter fsEmpty none [] false
        { initialApp with
          current_screen := CurrentScreen.CreatingFolder }).1.current_screen =
      CurrentScreen.CreatingFolder :=
  (c9_folder_creation fsEmpty none []
    { initialApp with current_screen := CurrentScreen.CreatingFolder }
    rfl).1.1

/-! ## Index alignment (C2) -/

theorem addChildren_nil (fsv : FsView) (E : List RPath)
    (recur : RPath → Nat → List (RStr × Bool) × List (Option RPath))
    (depth : Nat) : addChildren fsv E recur [] depth = ([], []) := rfl

theorem addChildren_cons (fsv : FsView) (E : List RPath)
    (recur : RPath → Nat → List (RStr × Bool) × List (Option RPath))
    (c : RPath) (cs : List RPath) (depth : Nat) :
    addChildren fsv E recur (c :: cs) depth =
      ((display_text (fsv.isDir c) (fsv.isDir c && decide (c ∈ E))
          (c.getLast?.getD "") depth, fsv.isFile c) ::
         (if (fsv.isDir c && decide (c ∈ E)) = true then recur c (depth + 1)
          else ([], [])).1 ++
         (addChildren fsv E recur cs depth).1,
       some c ::
         (if (fsv.isDir c && decide (c ∈ E)) = true then recur c (depth + 1)
          else ([], [])).2 ++
         (addChildren fsv E recur cs depth).2) := rfl

theorem add_items_zero (fsv : FsView) (E visible : List RPath) (dir : RPath)
    (depth : Nat) :
    add_directory_items fsv E visible 0 dir depth = ([], []) := rfl

theorem add_items_succ (fsv : FsView) (E visible : List RPath) (fuel : Nat)
    (dir : RPath) (depth : Nat) :
    add_directory_items fsv E visible (fuel + 1) dir depth =
      addChildren fsv E (add_directory_items fsv E visible fuel)
        (sortPaths (childrenOf visible dir)) depth := rfl

theorem display_text_head (b e : Bool) (n : String) (d : Nat) :
    (display_text b e n (d + 1)).head? = some ' ' := by
  cases b <;> cases e <;> rfl

theorem not_header_of_head_space (r : RStr × Bool)
    (h : r.1.head? = some ' ') : ¬ isHeaderRow r := by
  intro hh
  cases hh with
  | inl h1 => rw [h1] at h; exact absurd h (by decide)
  | inr h2 => rw [h2] at h; exact absurd h (by decide)

theorem addChildren_length (fsv : FsView) (E : List RPath)
    (recur : RPath → Nat → List (RStr × Bool) × List (Option RPath))
    (h : ∀ c d, ((recur c d).1).length = ((recur c d).2).length) :
    ∀ cs depth, ((addChildren fsv E recur cs depth).1).length =
      ((addChildren fsv E recur cs depth).2).length := by
  intro cs
  induction cs with
  | nil => intro depth; rfl
  | cons c cs ih =>
    intro depth
    rw [addChildren_cons]
    by_cases hex : (fsv.isDir c && decide (c ∈ E)) = true
    · simp only [if_pos hex, List.length_cons, List.length_append,
        ih depth, h c (depth + 1)]
    · simp only [if_neg hex, List.length_cons, List.length_append,
        ih depth]
      rfl

theorem add_items_length (fsv : FsView) (E visible : List RPath) :
    ∀ fuel dir depth,
      ((add_directory_items fsv E visible fuel dir depth).1).length =
      ((add_directory_items fsv E visible fuel dir depth).2).length := by
  intro fuel
  induction fuel with
  | zero => intro dir depth; rfl
  | succ fuel ih =>
    intro dir depth
    exact addChildren_length fsv E _ (fun c d => ih c d) _ depth

theorem addChildren_snd_forall (fsv : FsView) (E : List RPath)
    (recur : RPath → Nat → List (RStr × Bool) × List (Option RPath))
    (h : ∀ c d x, x ∈ (recur c d).2 → x ≠ none) :
    ∀ cs depth x, x ∈ (addChildren fsv E recur cs depth).2 → x ≠ none := by
  intro cs
  induction cs with
  | nil => intro depth x hx; cases hx
  | cons c cs ih =>
    intro depth x hx
    rw [addChildren_cons] at hx
    simp only [List.mem_cons, List.mem_append] at hx
    rcases hx with (hx | hx) | hx
    · subst hx; exact Option.noConfusion
    · by_cases hex : (fsv.isDir c && decide (c ∈ E)) = true
      · rw [if_pos hex] at hx
        exact h c (depth + 1) x hx
      · rw [if_neg hex] at hx
        simp at hx
    · exact ih depth x hx

theorem add_items_snd_forall (fsv : FsView) (E visible : List RPath) :
    ∀ fuel dir depth x,
      x ∈ (add_directory_items fsv E visible fuel dir depth).2 →
      x ≠ none := by
  intro fuel
  induction fuel with
  | zero => intro dir depth x hx; cases hx
  | succ fuel ih =>
    intro dir depth x hx
    exact addChildren_snd_forall fsv E _ (fun c d => ih c d) _ depth x hx

theorem addChildren_fst_head (fsv : FsView) (E : List RPath)
    (recur : RPath → Nat → List (RStr × Bool) × List (Option RPath))
    (h : ∀ c d, 1 ≤ d → ∀ r, r ∈ (recur c d).1 → r.1.head? = some ' ') :
    ∀ cs depth, 1 ≤ depth →
      ∀ r, r ∈ (addChildren fsv E recur cs depth).1 →
        r.1.head? = some ' ' := by
  intro cs
  induction cs with
  | nil => intro depth _ r hr; cases hr
  | cons c cs ih =>
    intro depth hd r hr
    obtain ⟨m, rfl⟩ : ∃ m, depth = m + 1 := ⟨depth - 1, by omega⟩
    rw [addChildren_cons] at hr
    simp only [List.mem_cons, List.mem_append] at hr
    rcases hr with (hr | hr) | hr
    · subst hr
      exact display_text_head _ _ _ m
    · by_cases hex : (fsv.isDir c && decide (c ∈ E)) = true
      · rw [if_pos hex] at hr
        exact h c (m + 2) (by omega) r hr
      · rw [if_neg hex] at hr
        simp at hr
    · exact ih (m + 1) (by omega) r hr

theorem add_items_fst_head (fsv : FsView) (E visible : List RPath) :
    ∀ fuel dir depth, 1 ≤ depth →
      ∀ r, r ∈ (add_directory_items fsv E visible fuel dir depth).1 →
        r.1.head? = some ' ' := by
  intro fuel
  induction fuel with
  | zero => intro dir depth _ r hr; cases hr
  | succ fuel ih =>
    intro dir depth hd r hr
    exact addChildren_fst_head fsv E _ (fun c d => ih c d) _ depth hd r hr

/-- C2: every projection, the error projection included, produces row and
path lists of equal length, and an index carries `path = None` exactly when
its row is a non-navigable header (the root header row or the error row). -/
theorem c2_index_alignment (fsv : FsView) (S E : List RPath) (a : AppState) :
    (((get_files_as_list_items_with_paths fsv S E).1).length =
       ((get_files_as_list_items_with_paths fsv S E).2).length ∧
     ∀ i (h1 : i < ((get_files_as_list_items_with_paths fsv S E).1).length)
         (h2 : i < ((get_files_as_list_items_with_paths fsv S E).2).length),
       ((get_files_as_list_items_with_paths fsv S E).2.get ⟨i, h2⟩ = none ↔
        isHeaderRow ((get_files_as_list_items_with_paths fsv S E).1.get
          ⟨i, h1⟩))) ∧
    (((load_browse_items fsv none a).browse_items).length =
       ((load_browse_items fsv none a).browse_paths).length ∧
     ∀ i (h1 : i < ((load_browse_items fsv none a).browse_items).length)
         (h2 : i < ((load_browse_items fsv none a).browse_paths).length),
       ((load_browse_items fsv none a).browse_paths.get ⟨i, h2⟩ = none ↔
        isHeaderRow ((load_browse_items fsv none a).browse_items.get
          ⟨i, h1⟩))) := by
  constructor
  · constructor
    · simp only [get_files_as_list_items_with_paths, List.length_cons]
      rw [add_items_length]
    · intro i h1 h2
      cases i with
      | zero =>
        simp only [get_files_as_list_items_with_paths, List.get_cons_zero]
        simp [isHeaderRow]
      | succ j =>
        simp only [get_files_as_list_items_with_paths,
          List.get_cons_succ] at h1 h2 ⊢
        have hmem2 := List.get_mem
          (add_directory_items fsv E (visiblePaths S E) (maxPathLen S + 1)
            [] 1).2 j (by simpa using h2)
        have hne := add_items_snd_forall fsv E (visiblePaths S E)
          (maxPathLen S + 1) [] 1 _ hmem2
        have hmem1 := List.get_mem
          (add_directory_items fsv E (visiblePaths S E) (maxPathLen S + 1)
            [] 1).1 j (by simpa using h1)
        have hsp := add_items_fst_head fsv E (visiblePaths S E)
          (maxPathLen S + 1) [] 1 (by omega) _ hmem1
        exact iff_of_false hne (not_header_of_head_space _ hsp)
  · constructor
    · rfl
    · intro i h1 h2
      have hi : i = 0 := by
        simp only [load_browse_items, List.length_cons,
          List.length_nil] at h1
        omega
      subst hi
      simp only [load_browse_items, List.get_cons_zero]
      simp [isHeaderRow]

/-! ## Visibility characterisation (C1) -/

theorem checkParents_succ (E : List RPath) (fuel : Nat) (p : RPath) :
    checkParents E (fuel + 1) p =
      if p.dropLast = [] then true
      else if p.dropLast ∈ E then checkParents E fuel p.dropLast
      else false := rfl

theorem checkParents_iff (E : List RPath) :
    ∀ fuel p, p.length ≤ fuel →
      (checkParents E fuel p = true ↔
        ∀ i, 1 ≤ i → i < p.length → p.take i ∈ E) := by
  intro fuel
  induction fuel with
  | zero =>
    intro p hp
    have hp0 : p = [] := List.length_eq_zero.mp (Nat.le_zero.mp hp)
    subst hp0
    simp [checkParents]
  | succ fuel ih =>
    intro p hp
    rw [checkParents_succ]
    by_cases hpar : p.dropLast = []
    · rw [if_pos hpar]
      have hlen : p.length ≤ 1 := by
        have hd := List.length_dropLast p
        rw [hpar] at hd
        simp at hd
        omega
      exact iff_of_true rfl (fun i h1 h2 => absurd h2 (by omega))
    · rw [if_neg hpar]
      have hppos : 0 < p.dropLast.length := List.length_pos.mpr hpar
      have hplen : 2 ≤ p.length := by
        have hd := List.length_dropLast p
        omega
      have hdl : p.dropLast = p.take (p.length - 1) := List.dropLast_eq_take p
      have hlen' : p.dropLast.length ≤ fuel := by
        rw [List.length_dropLast]
        omega
      by_cases hmem : p.dropLast ∈ E
      · rw [if_pos hmem]
        rw [ih p.dropLast hlen']
        constructor
        · intro hall i h1 h2
          by_cases hi : i < p.length - 1
          · have hx := hall i h1 (by rw [List.length_dropLast]; omega)
            rw [hdl, List.take_take, Nat.min_eq_left (by omega : i ≤ p.length - 1)] at hx
            exact hx
          · have hieq : i = p.length - 1 := by omega
            rw [hieq, ← hdl]
            exact hmem
        · intro hall i h1 h2
          rw [List.length_dropLast] at h2
          rw [hdl, List.take_take, Nat.min_eq_left (by omega : i ≤ p.length - 1)]
          exact hall i h1 (by omega)
      · rw [if_neg hmem]
        refine iff_of_false (by simp) ?_
        intro hall
        apply hmem
        rw [hdl]
        exact hall (p.length - 1) (by omega) (by omega)

theorem should_show_path_iff (p : RPath) (E : List RPath) :
    should_show_path p E = true ↔
      p ≠ [] ∧ ∀ i, 1 ≤ i → i < p.length → p.take i ∈ E := by
  unfold should_show_path
  by_cases hp : p = []
  · rw [if_pos hp]
    simp [hp]
  · rw [if_neg hp]
    rw [checkParents_iff E p.length p (le_refl _)]
    simp [hp]

theorem mem_visiblePaths (S E : List RPath) (p : RPath) :
    p ∈ visiblePaths S E ↔ p ∈ S ∧ should_show_path p E = true := by
  unfold visiblePaths
  rw [List.mem_filter, mem_sortPaths, List.mem_filter]
  constructor
  · rintro ⟨⟨h1, _⟩, h3⟩
    exact ⟨h1, h3⟩
  · rintro ⟨h1, h3⟩
    refine ⟨⟨h1, ?_⟩, h3⟩
    have hne : p ≠ [] := ((should_show_path_iff p E).mp h3).1
    simpa using hne

theorem visiblePaths_ne_nil (S E : List RPath) (p : RPath)
    (hp : p ∈ visiblePaths S E) : p ≠ [] :=
  ((should_show_path_iff p E).mp ((mem_visiblePaths S E p).mp hp).2).1

theorem mem_childrenOf (visible : List RPath) (d : RPath) (p : RPath) :
    p ∈ childrenOf visible d ↔ p ∈ visible ∧ p.dropLast = d := by
  unfold childrenOf
  rw [List.mem_filter]
  simp

theorem mem_addChildren_snd (fsv : FsView) (E : List RPath)
    (recur : RPath → Nat → List (RStr × Bool) × List (Option RPath))
    (cs : List RPath) (depth : Nat) (P : RPath) :
    some P ∈ (addChildren fsv E recur cs depth).2 ↔
      ∃ c, c ∈ cs ∧ (P = c ∨ ((fsv.isDir c && decide (c ∈ E)) = true ∧
        some P ∈ (recur c (depth + 1)).2)) := by
  induction cs with
  | nil => simp [addChildren_nil]
  | cons c cs ih =>
    rw [addChildren_cons]
    simp only [List.mem_cons, List.mem_append]
    constructor
    · rintro ((h | h) | h)
      · exact ⟨c, Or.inl rfl, Or.inl (Option.some.inj h)⟩
      · by_cases hex : (fsv.isDir c && decide (c ∈ E)) = true
        · rw [if_pos hex] at h
          exact ⟨c, Or.inl rfl, Or.inr ⟨hex, h⟩⟩
        · rw [if_neg hex] at h
          simp at h
      · rcases ih.mp h with ⟨c', hc', hor⟩
        exact ⟨c', Or.inr hc', hor⟩
    · rintro ⟨c', hc', hor⟩
      rcases hc' with rfl | hc'
      · rcases hor with rfl | ⟨hex, hmem⟩
        · exact Or.inl (Or.inl rfl)
        · exact Or.inl (Or.inr (by rw [if_pos hex]; exact hmem))
      · exact Or.inr (ih.mpr ⟨c', hc', hor⟩)

theorem mem_add_iff_emits (fsv : FsView) (E visible : List RPath)
    (hv : ∀ p, p ∈ visible → p ≠ []) :
    ∀ fuel dir depth P,
      (some P ∈ (add_directory_items fsv E visible fuel dir depth).2 ↔
        Emits fsv E visible fuel dir P) := by
  intro fuel
  induction fuel with
  | zero =>
    intro dir depth P
    rw [add_items_zero]
    constructor
    · intro h
      simp at h
    · rintro ⟨h1, h2, _⟩
      exact absurd h2 (by omega)
  | succ fuel ih =>
    intro dir depth P
    rw [add_items_succ, mem_addChildren_snd]
    constructor
    · rintro ⟨c, hc, hor⟩
      rw [mem_sortPaths, mem_childrenOf] at hc
      obtain ⟨hcv, hcd⟩ := hc
      have hcne : c ≠ [] := hv c hcv
      have hcpos : 0 < c.length := List.length_pos.mpr hcne
      have hcd1 := List.length_dropLast c
      have hclen : c.length = dir.length + 1 := by
        rw [hcd] at hcd1
        omega
      have hctake : c.take dir.length = dir := by
        rw [show dir.length = c.length - 1 from by omega,
          ← List.dropLast_eq_take, hcd]
      rcases hor with rfl | ⟨hex, hmem⟩
      · refine ⟨by omega, by omega, hctake, hcv, ?_⟩
        intro i hi1 hi2
        exact absurd hi2 (by omega)
      · obtain ⟨e1, e2, e3, e4, e5⟩ := (ih c (depth + 1) P).mp hmem
        obtain ⟨hdir, hcE⟩ : fsv.isDir c = true ∧ c ∈ E := by
          simpa [Bool.and_eq_true, decide_eq_true_eq] using hex
        refine ⟨by omega, by omega, ?_, e4, ?_⟩
        · have hsplit : P.take dir.length = (P.take c.length).take dir.length := by
            rw [List.take_take, Nat.min_eq_left (by omega : dir.length ≤ c.length)]
          rw [hsplit, e3, hctake]
        · intro i hi1 hi2
          by_cases hic : i = c.length
          · subst hic
            rw [e3]
            exact ⟨hcv, hdir, hcE⟩
          · exact e5 i (by omega) hi2
    · rintro ⟨e1, e2, e3, e4, e5⟩
      by_cases hk : P.length = dir.length + 1
      · refine ⟨P, ?_, Or.inl rfl⟩
        rw [mem_sortPaths, mem_childrenOf]
        refine ⟨e4, ?_⟩
        rw [List.dropLast_eq_take, show P.length - 1 = dir.length from by omega,
          e3]
      · have hlt : dir.length + 1 < P.length := by omega
        obtain ⟨cv, cdir, cE⟩ := e5 (dir.length + 1) (by omega) hlt
        have hlen1 : (P.take (dir.length + 1)).length = dir.length + 1 := by
          rw [List.length_take]
          omega
        refine ⟨P.take (dir.length + 1), ?_, Or.inr ⟨?_, ?_⟩⟩
        · rw [mem_sortPaths, mem_childrenOf]
          refine ⟨cv, ?_⟩
          calc (P.take (dir.length + 1)).dropLast
              = (P.take (dir.length + 1)).take
                  ((P.take (dir.length + 1)).length - 1) :=
                List.dropLast_eq_take _
            _ = (P.take (dir.length + 1)).take dir.length := by
                rw [hlen1, Nat.add_sub_cancel]
            _ = P.take dir.length := by
                rw [List.take_take,
                  Nat.min_eq_left (by omega : dir.length ≤ dir.length + 1)]
            _ = dir := e3
        · simp [Bool.and_eq_true, cdir, cE]
        · refine (ih (P.take (dir.length + 1)) (depth + 1) P).mpr
            ⟨?_, ?_, ?_, e4, ?_⟩
          · rw [hlen1]
            omega
          · rw [hlen1]
            omega
          · rw [hlen1]
          · intro i hi1 hi2
            rw [hlen1] at hi1
            exact e5 i (by omega) hi2

theorem get_files_eq (fsv : FsView) (S E : List RPath) :
    get_files_as_list_items_with_paths fsv S E =
      ((rootHeaderText, false) ::
         (add_directory_items fsv E (visiblePaths S E) (maxPathLen S + 1)
           [] 1).1,
       none ::
         (add_directory_items fsv E (visiblePaths S E) (maxPathLen S + 1)
           [] 1).2) := rfl

/-- C1: for any scan result and expansion state, a non-root scanned path `P`
appears in the browse projection iff every ancestor directory strictly
between `P` and the notes root is expanded; direct children of the root
(`P.length = 1`) are always visible.  The scan is assumed ancestor-closed:
every strict ancestor of a scanned path is itself scanned and is a
directory. -/
theorem c1_visibility (fsv : FsView) (S E : List RPath) (P : RPath)
    (hclosed : ∀ p, p ∈ S → ∀ i, 1 ≤ i → i < p.length →
      (p.take i ∈ S ∧ fsv.isDir (p.take i) = true))
    (hP : P ∈ S) (hPn : P ≠ []) :
    (some P ∈ (get_files_as_list_items_with_paths fsv S E).2 ↔
      ∀ i, 1 ≤ i → i < P.length → P.take i ∈ E) ∧
    (P.length = 1 → some P ∈ (get_files_as_list_items_with_paths fsv S E).2) := by
  have hv : ∀ p, p ∈ visiblePaths S E → p ≠ [] :=
    fun p hp => visiblePaths_ne_nil S E p hp
  have hmem : some P ∈ (get_files_as_list_items_with_paths fsv S E).2 ↔
      Emits fsv E (visiblePaths S E) (maxPathLen S + 1) [] P := by
    rw [get_files_eq]
    simp only [List.mem_cons]
    rw [mem_add_iff_emits fsv E (visiblePaths S E) hv (maxPathLen S + 1) [] 1 P]
    constructor
    · rintro (h | h)
      · exact absurd h (by simp)
      · exact h
    · exact fun h => Or.inr h
  have hiff : some P ∈ (get_files_as_list_items_with_paths fsv S E).2 ↔
      ∀ i, 1 ≤ i → i < P.length → P.take i ∈ E := by
    rw [hmem]
    constructor
    · rintro ⟨_, _, _, _, e5⟩ i hi1 hi2
      exact (e5 i (by simp only [List.length_nil]; omega) hi2).2.2
    · intro hall
      have hPpos : 0 < P.length := List.length_pos.mpr hPn
      have hPmax : P.length ≤ maxPathLen S := le_maxPathLen S P hP
      refine ⟨by simp only [List.length_nil]; omega,
        by simp only [List.length_nil]; omega, rfl, ?_, ?_⟩
      · exact (mem_visiblePaths S E P).mpr
          ⟨hP, (should_show_path_iff P E).mpr ⟨hPn, hall⟩⟩
      · intro i hi1 hi2
        obtain ⟨hiS, hiD⟩ := hclosed P hP i
          (by simp only [List.length_nil] at hi1; omega) hi2
        have hitE : P.take i ∈ E := hall i (by omega) hi2
        have hlen : (P.take i).length = i := by
          rw [List.length_take]
          omega
        have hiNe : P.take i ≠ [] := by
          intro hnil
          rw [hnil] at hlen
          simp at hlen
          omega
        have hiShow : should_show_path (P.take i) E = true := by
          rw [should_show_path_iff]
          refine ⟨hiNe, ?_⟩
          intro j hj1 hj2
          rw [hlen] at hj2
          rw [List.take_take, Nat.min_eq_left (by omega : j ≤ i)]
          exact hall j hj1 (by omega)
        exact ⟨(mem_visiblePaths S E _).mpr ⟨hiS, hiShow⟩, hiD, hitE⟩
  refine ⟨hiff, fun h1 => hiff.mpr (fun i hi1 hi2 => absurd hi2 (by omega))⟩

/-- Witness for C1: in a scan holding only the root child `a`, the path `a`
appears in the projection. -/
theorem c1_visibility_witness :
    some (["a"] : RPath) ∈
      (get_files_as_list_items_with_paths fsEmpty [["a"]] []).2 :=
  (c1_visibility fsEmpty [["a"]] [] ["a"]
    (by
      intro p hp i h1 h2
      simp at hp
      subst hp
      simp at h2
      omega)
    (by simp) (by simp)).2 (by simp)

/-- Witness for C2, evaluated at the header index of a concrete projection. -/
theorem c2_index_alignment_witness :
    ((get_files_as_list_items_with_paths fsEmpty [["a"]] []).2.get
        ⟨0, by decide⟩ = none ↔
      isHeaderRow ((get_files_as_list_items_with_paths fsEmpty [["a"]]
        []).1.get ⟨0, by decide⟩)) :=
  (c2_index_alignment fsEmpty [["a"]] [] initialApp).1.2 0 (by decide)
    (by decide)
